import Mathlib

/-!
Verification development for the Registrationshop registration pipeline core:
the landmark point-set helpers of `ui/transformations/LandmarkTransformationTool.py`,
and the strategy-graph execution model (`core/StrategyNode.py`, `core/StrategyEdge.py`,
`core/Transformation.py`, graph dirty propagation) described by the specification and
exercised by `tests/test_StrategyEdge.py`.
-/

namespace RegistrationShop

/-! ## Landmark point sets (`LandmarkTransformationTool.py`)

A picked location is a 3-component coordinate (a list of three floats in the
source, hence always truthy in Python); we model it as an opaque element of a
type `α`.  A landmark point set is the two-element list `[fixed, moving]` with
each slot either a location or `None`; we model it as a pair of `Option α`. -/

/-- Embeds `NumberOfSets` (LandmarkTransformationTool.py lines 289-299): counts
the point sets whose slot 0 and slot 1 are both not `None`, by a running
counter over the collection. -/
def NumberOfSets {α : Type} (points : List (Option α × Option α)) : Nat :=
  points.foldl
    (fun count pointset =>
      if pointset.1.isSome && pointset.2.isSome then count + 1 else count) 0

/-- Embeds `PointsSetsIsEmpty` (LandmarkTransformationTool.py lines 281-286):
true when `NumberOfSets` finds no complete set. -/
def PointsSetsIsEmpty {α : Type} (points : List (Option α × Option α)) : Bool :=
  NumberOfSets points == 0

/-- The two landmark flags used by the tool (`"fixed"` and `"moving"`). -/
inductive LandmarkType where
  | fixed
  | moving
deriving DecidableEq, Repr

/-- Embeds `landmarkSet = [location, None] if (landmarkType == "fixed") else [None, location]`
(LandmarkTransformationTool.py line 184). -/
def newLandmarkSet {α : Type} (lt : LandmarkType) (location : α) :
    Option α × Option α :=
  match lt with
  | .fixed => (some location, none)
  | .moving => (none, some location)

/-- Embeds the slot update `index = 0 if landmarkType == "fixed" else 1;
landmarkPointSets[activeIndex][index] = location`
(LandmarkTransformationTool.py lines 176, 181). -/
def setSlot {α : Type} (lt : LandmarkType) (location : α)
    (p : Option α × Option α) : Option α × Option α :=
  match lt with
  | .fixed => (some location, p.2)
  | .moving => (p.1, some location)

/-- Embeds the effect of `_pickedLocation` (LandmarkTransformationTool.py lines
169-191) on `self.landmarkPointSets`: when `activeIndex` addresses an existing
set, only the slot for the given landmark type is overwritten; otherwise a new
set is appended.  The landmark-indicator bookkeeping and the render calls touch
only the visualization objects, not the point sets. -/
def pickedLocation {α : Type} (sets : List (Option α × Option α))
    (activeIndex : Nat) (location : α) (lt : LandmarkType) :
    List (Option α × Option α) :=
  if activeIndex < sets.length then
    sets.set activeIndex (setSlot lt location (sets.getD activeIndex (none, none)))
  else
    sets ++ [newLandmarkSet lt location]

/-- Embeds the landmark-collection loop of `_updateTransform`
(LandmarkTransformationTool.py lines 207-217): starting from empty point arrays
and `pointsetIndex = 0`, each pointset with both slots set (slots hold
3-component coordinates, which are truthy, so the Python `if pointset[0] and
pointset[1]` test is both-slots-not-None) appends `(pointsetIndex, fixedPoint)`
to the fixed writes and `(pointsetIndex, originalTransform.TransformPoint(movingPoint))`
to the moving writes, then increments `pointsetIndex`.  The opaque `T` models
`originalTransform.TransformPoint`.  Returns (fixed writes, moving writes,
final pointsetIndex).  `updateStep` is the body of the `for index in range(...)`
loop for one pointset. -/
def updateStep {α : Type} (T : α → α)
    (st : List (Nat × α) × List (Nat × α) × Nat)
    (pointset : Option α × Option α) :
    List (Nat × α) × List (Nat × α) × Nat :=
  match pointset with
  | (some fixedPoint, some movingPoint) =>
      (st.1 ++ [(st.2.2, fixedPoint)],
       st.2.1 ++ [(st.2.2, T movingPoint)],
       st.2.2 + 1)
  | _ => st

/-- Folds `updateStep` over the landmark point sets from the initial state
(empty writes, `pointsetIndex = 0`), as the loop in `_updateTransform` does. -/
def updateTransformWrites {α : Type} (T : α → α)
    (sets : List (Option α × Option α)) :
    List (Nat × α) × List (Nat × α) × Nat :=
  sets.foldl (updateStep T) ([], [], 0)

/-! ### Helper lemmas on the landmark functions -/

lemma numberOfSets_foldl_acc {α : Type} (points : List (Option α × Option α))
    (n : Nat) :
    points.foldl
      (fun count pointset =>
        if pointset.1.isSome && pointset.2.isSome then count + 1 else count) n
      = n + points.countP (fun p => p.1.isSome && p.2.isSome) := by
  induction points generalizing n with
  | nil => simp
  | cons hd tl ih =>
      rw [List.foldl_cons, List.countP_cons, ih]
      by_cases h : (hd.1.isSome && hd.2.isSome) = true
      · rw [if_pos h, if_pos h]; omega
      · rw [if_neg h, if_neg h]; omega

lemma numberOfSets_eq_countP {α : Type} (points : List (Option α × Option α)) :
    NumberOfSets points = points.countP (fun p => p.1.isSome && p.2.isSome) := by
  have h := numberOfSets_foldl_acc points 0
  rw [NumberOfSets, h, Nat.zero_add]

lemma updateStep_both {α : Type} (T : α → α)
    (st : List (Nat × α) × List (Nat × α) × Nat) (fp mp : α) :
    updateStep T st (some fp, some mp) =
      (st.1 ++ [(st.2.2, fp)], st.2.1 ++ [(st.2.2, T mp)], st.2.2 + 1) := rfl

lemma updateStep_skip {α : Type} (T : α → α)
    (st : List (Nat × α) × List (Nat × α) × Nat)
    (p : Option α × Option α) (h : (p.1.isSome && p.2.isSome) = false) :
    updateStep T st p = st := by
  obtain ⟨of, om⟩ := p
  cases of with
  | none => rfl
  | some fp =>
      cases om with
      | none => rfl
      | some mp => simp at h

lemma updateTransformWrites_aux {α : Type} (T : α → α)
    (sets : List (Option α × Option α))
    (a : List (Nat × α) × List (Nat × α) × Nat) :
    (sets.foldl (updateStep T) a).2.2 =
      a.2.2 + sets.countP (fun p => p.1.isSome && p.2.isSome) ∧
    (sets.foldl (updateStep T) a).1.length =
      a.1.length + sets.countP (fun p => p.1.isSome && p.2.isSome) ∧
    (sets.foldl (updateStep T) a).2.1.length =
      a.2.1.length + sets.countP (fun p => p.1.isSome && p.2.isSome) ∧
    (∀ ip ∈ (sets.foldl (updateStep T) a).1, ip ∈ a.1 ∨
      (a.2.2 ≤ ip.1 ∧
        ip.1 < a.2.2 + sets.countP (fun p => p.1.isSome && p.2.isSome))) ∧
    (∀ ip ∈ (sets.foldl (updateStep T) a).2.1, ip ∈ a.2.1 ∨
      (a.2.2 ≤ ip.1 ∧
        ip.1 < a.2.2 + sets.countP (fun p => p.1.isSome && p.2.isSome))) := by
  induction sets generalizing a with
  | nil =>
      refine ⟨by simp, by simp, by simp, ?_, ?_⟩
      · exact fun ip hip => Or.inl hip
      · exact fun ip hip => Or.inl hip
  | cons hd tl ih =>
      by_cases hb : (hd.1.isSome && hd.2.isSome) = true
      · obtain ⟨of, om⟩ := hd
        match of, om, hb with
        | some fp, some mp, _ =>
          rw [List.foldl_cons, updateStep_both]
          obtain ⟨h1, h2, h3, h4, h5⟩ :=
            ih (a.1 ++ [(a.2.2, fp)], a.2.1 ++ [(a.2.2, T mp)], a.2.2 + 1)
          dsimp only at h1 h2 h3 h4 h5
          simp only [List.length_append, List.length_cons, List.length_nil]
            at h2 h3
          rw [List.countP_cons]
          simp only [Option.isSome_some, Bool.and_self, if_pos]
          refine ⟨?_, ?_, ?_, ?_, ?_⟩
          · rw [h1]; omega
          · rw [h2]; omega
          · rw [h3]; omega
          · intro ip hip
            rcases h4 ip hip with hmem | hrange
            · rcases List.mem_append.mp hmem with h | h
              · exact Or.inl h
              · right
                have hip' : ip = (a.2.2, fp) := by simpa using h
                subst hip'
                exact ⟨Nat.le_refl _, by dsimp only; omega⟩
            · exact Or.inr ⟨by omega, by omega⟩
          · intro ip hip
            rcases h5 ip hip with hmem | hrange
            · rcases List.mem_append.mp hmem with h | h
              · exact Or.inl h
              · right
                have hip' : ip = (a.2.2, T mp) := by simpa using h
                subst hip'
                exact ⟨Nat.le_refl _, by dsimp only; omega⟩
            · exact Or.inr ⟨by omega, by omega⟩
      · rw [List.foldl_cons, updateStep_skip T a hd (by simpa using hb),
          List.countP_cons, if_neg hb]
        simpa using ih a

/-! ### Claims about the landmark point-set helpers -/

/-- Claim C8: for every list of landmark point sets, `NumberOfSets` returns
exactly the number of sets whose fixed slot (index 0) and moving slot
(index 1) are both non-None, and `PointsSetsIsEmpty` returns true if and only
if that count is zero. -/
theorem numberOfSets_counts_complete_sets {α : Type}
    (points : List (Option α × Option α)) :
    NumberOfSets points = points.countP (fun p => p.1.isSome && p.2.isSome) ∧
    (PointsSetsIsEmpty points = true ↔
      points.countP (fun p => p.1.isSome && p.2.isSome) = 0) := by
  refine ⟨numberOfSets_eq_countP points, ?_⟩
  rw [PointsSetsIsEmpty, numberOfSets_eq_countP]
  simp

/-- Claim C9: `_pickedLocation` appends exactly one new two-element point set
when `activeIndex` is past the end of `landmarkPointSets` (the picked location
in slot 0 and None in slot 1 for the "fixed" landmark type, and slots swapped
otherwise), and when `activeIndex` addresses an existing set it only overwrites
the slot for the given landmark type of that set, leaving the length and all
other sets unchanged. -/
theorem pickedLocation_point_set_update {α : Type}
    (sets : List (Option α × Option α)) (activeIndex : Nat) (location : α)
    (lt : LandmarkType) :
    (sets.length ≤ activeIndex →
      pickedLocation sets activeIndex location lt =
        sets ++ [if lt = .fixed then (some location, none)
                 else (none, some location)] ∧
      (pickedLocation sets activeIndex location lt).length = sets.length + 1) ∧
    (activeIndex < sets.length →
      (pickedLocation sets activeIndex location lt).length = sets.length ∧
      (pickedLocation sets activeIndex location lt).getD activeIndex (none, none) =
        (if lt = .fixed
         then (some location, (sets.getD activeIndex (none, none)).2)
         else ((sets.getD activeIndex (none, none)).1, some location)) ∧
      ∀ j, j ≠ activeIndex →
        (pickedLocation sets activeIndex location lt).getD j (none, none) =
          sets.getD j (none, none)) := by
  constructor
  · intro h
    rw [pickedLocation, if_neg (by omega)]
    constructor
    · cases lt <;> simp [newLandmarkSet]
    · simp
  · intro h
    rw [pickedLocation, if_pos h]
    refine ⟨List.length_set _ _ _, ?_, ?_⟩
    · rw [List.getD_eq_getElem?_getD, List.getElem?_set_eq_of_lt _ h]
      cases lt <;> simp [setSlot, List.getD_eq_getElem?_getD]
    · intro j hj
      rw [List.getD_eq_getElem?_getD, List.getElem?_set_ne (Ne.symm hj),
        ← List.getD_eq_getElem?_getD]

/-- Witness for C9 at concrete inputs: appending to an empty collection, and
updating slot 1 of an existing set. -/
theorem pickedLocation_point_set_update_witness :
    pickedLocation ([] : List (Option Int × Option Int)) 0 7 .fixed =
      [(some 7, none)] ∧
    (pickedLocation [((none : Option Int), some 3)] 0 7 .moving).getD 0
      (none, none) = (none, some 7) := by
  constructor
  · have h :=
      ((pickedLocation_point_set_update
        ([] : List (Option Int × Option Int)) 0 7 .fixed).1 (by decide)).1
    simpa using h
  · have h :=
      ((pickedLocation_point_set_update
        [((none : Option Int), some 3)] 0 7 .moving).2 (by decide)).2.1
    simpa using h

/-- Claim C10: the landmark-collection loop of `_updateTransform` writes one
fixed point and one moving point per set whose two slots are both set, so the
final `pointsetIndex` equals `NumberOfSets`, and every `SetPoint` index is
strictly below the preallocated number of points. -/
theorem updateTransform_writes_match_sets {α : Type} (T : α → α)
    (sets : List (Option α × Option α)) :
    (updateTransformWrites T sets).2.2 = NumberOfSets sets ∧
    (updateTransformWrites T sets).1.length = NumberOfSets sets ∧
    (updateTransformWrites T sets).2.1.length = NumberOfSets sets ∧
    (∀ ip ∈ (updateTransformWrites T sets).1, ip.1 < NumberOfSets sets) ∧
    (∀ ip ∈ (updateTransformWrites T sets).2.1, ip.1 < NumberOfSets sets) := by
  obtain ⟨h1, h2, h3, h4, h5⟩ := updateTransformWrites_aux T sets ([], [], 0)
  dsimp only at h1 h2 h3 h4 h5
  simp only [updateTransformWrites, numberOfSets_eq_countP]
  refine ⟨by simpa using h1, by simpa using h2, by simpa using h3, ?_, ?_⟩
  · intro ip hip
    rcases h4 ip hip with hmem | hrange
    · exact absurd hmem (List.not_mem_nil ip)
    · simpa using hrange.2
  · intro ip hip
    rcases h5 ip hip with hmem | hrange
    · exact absurd hmem (List.not_mem_nil ip)
    · simpa using hrange.2

/-- Witness for C10 at a concrete input: three point sets of which two are
complete; the write `(1, 4)` is in range. -/
theorem updateTransform_writes_match_sets_witness :
    (updateTransformWrites (fun x : Int => x + 1)
      [(some 1, some 2), (none, some 3), (some 4, some 5)]).2.2 =
      NumberOfSets [((some 1 : Option Int), some 2), (none, some 3),
        (some 4, some 5)] ∧
    (1 : Nat) < NumberOfSets [((some 1 : Option Int), some 2), (none, some 3),
        (some 4, some 5)] := by
  refine ⟨(updateTransform_writes_match_sets (fun x : Int => x + 1) _).1, ?_⟩
  exact (updateTransform_writes_match_sets (fun x : Int => x + 1)
    [(some 1, some 2), (none, some 3), (some 4, some 5)]).2.2.2.1
    (1, 4) (by decide)

/-! ## Transformation parameter files

Modelled from the spec: `core/Transformation.py` is not in the excerpt (only
its test and callers are).  A `Transformation` is an ordered sequence of
key/value parameters, loadable from and savable to a text-based parameter
file format of `(key value)` lines, with `//` comment lines and empty lines
skipped, and a `ParseError` on a malformed line (e.g. mismatched parentheses
or an empty key token). -/

/-- Characters of one line of a parameter file. -/
abbrev Str := List Char

/-- The error kind raised by `Transformation.loadFromFile` on a missing,
unreadable or malformed file. -/
inductive ParamFileError where
  | parseError
deriving DecidableEq, Repr

/-- Modelled from the spec: a `Transformation` holds an ordered mapping of
parameter name to value (insertion order preserved). -/
structure Transformation where
  parameters : List (Str × Str)
deriving DecidableEq, Repr

/-- Splits a line at its first space: the first token and, when a space was
found, the remainder after it. -/
def splitFirstSpace : Str → Str × Option Str
  | [] => ([], none)
  | c :: cs =>
      if c = ' ' then ([], some cs)
      else (c :: (splitFirstSpace cs).1, (splitFirstSpace cs).2)

/-- Parses the interior of a parenthesized entry: the first token is the key
(`ParseError` when empty), the rest of the line is the value. -/
def parseInner (inner : Str) : Except ParamFileError (Option (Str × Str)) :=
  if (splitFirstSpace inner).1 = [] then .error .parseError
  else .ok (some ((splitFirstSpace inner).1, (splitFirstSpace inner).2.getD []))

/-- Parses what follows an opening parenthesis: the line must close with a
matching parenthesis, else the line is malformed. -/
def parseParen (rest : Str) : Except ParamFileError (Option (Str × Str)) :=
  if rest.getLast? = some ')' then parseInner rest.dropLast
  else .error .parseError

/-- Modelled from the spec: parses one line of the parameter file.  Empty
lines and `//` comment lines hold no entry; an entry line is `(key value)`;
anything else is malformed (mismatched parentheses/tokens in a line). -/
def parseLine (l : Str) : Except ParamFileError (Option (Str × Str)) :=
  match l with
  | [] => .ok none
  | c :: cs =>
      if c = '/' ∧ cs.head? = some '/' then .ok none
      else if c = '(' then parseParen cs
      else .error .parseError

/-- Parses all lines of a parameter file in order, collecting the entries and
propagating the first `ParseError`. -/
def parseParamLines : List Str → Except ParamFileError (List (Str × Str))
  | [] => .ok []
  | l :: ls =>
      match parseLine l, parseParamLines ls with
      | .error e, _ => .error e
      | .ok _, .error e => .error e
      | .ok none, .ok rest => .ok rest
      | .ok (some kv), .ok rest => .ok (kv :: rest)

/-- Serializes one parameter as the `(key value)` entry line. -/
def serializeParam (kv : Str × Str) : Str :=
  '(' :: ((kv.1 ++ ' ' :: kv.2) ++ [')'])

/-- Modelled from the spec: serializes the parameters in insertion order to
the same text format, one entry per line. -/
def serializeParams (ps : List (Str × Str)) : List Str :=
  ps.map serializeParam

/-- A model of the text-file store: an association of path to file lines.
Writing prepends a binding; reading takes the first binding for the path. -/
abbrev TextFS := List (String × List Str)

/-- Reads the lines of the file at `path`, `none` when it does not exist. -/
def readLines (fs : TextFS) (path : String) : Option (List Str) :=
  match fs with
  | [] => none
  | (p, ls) :: rest => if p = path then some ls else readLines rest path

/-- Modelled from the spec: `Transformation.loadFromFile(path)` parses the
structured text file at `path` into the ordered parameter set, failing with a
`ParseError` if the file is missing, unreadable, or malformed. -/
def loadFromFile (fs : TextFS) (path : String) :
    Except ParamFileError Transformation :=
  match readLines fs path with
  | none => .error .parseError
  | some ls =>
      match parseParamLines ls with
      | .error e => .error e
      | .ok ps => .ok ⟨ps⟩

/-- Modelled from the spec: `Transformation.saveToFile(path)` serializes the
parameters in insertion order to the same text format at `path`. -/
def saveToFile (fs : TextFS) (path : String) (t : Transformation) : TextFS :=
  (path, serializeParams t.parameters) :: fs

/-! ### Round-trip lemmas for the parameter file format -/

lemma splitFirstSpace_fst_no_space (l : Str) : ' ' ∉ (splitFirstSpace l).1 := by
  induction l with
  | nil => simp [splitFirstSpace]
  | cons c cs ih =>
      rw [splitFirstSpace]
      by_cases h : c = ' '
      · rw [if_pos h]; simp
      · rw [if_neg h]
        intro hmem
        rcases List.mem_cons.mp hmem with h1 | h1
        · exact h h1.symm
        · exact ih h1

lemma splitFirstSpace_append (k v : Str) (hk : ' ' ∉ k) :
    splitFirstSpace (k ++ ' ' :: v) = (k, some v) := by
  induction k with
  | nil => rw [List.nil_append, splitFirstSpace, if_pos rfl]
  | cons c k ih =>
      have hc : ¬(c = ' ') := fun hc => hk (hc ▸ List.mem_cons_self c k)
      have hk' : ' ' ∉ k := fun hm => hk (List.mem_cons_of_mem c hm)
      rw [List.cons_append, splitFirstSpace, if_neg hc, ih hk']

lemma parseInner_append (k v : Str) (hne : k ≠ []) (hk : ' ' ∉ k) :
    parseInner (k ++ ' ' :: v) = .ok (some (k, v)) := by
  rw [parseInner, splitFirstSpace_append k v hk]
  simp [hne]

lemma parseLine_serializeParam (kv : Str × Str) (hne : kv.1 ≠ [])
    (hk : ' ' ∉ kv.1) :
    parseLine (serializeParam kv) = .ok (some kv) := by
  rw [serializeParam, parseLine,
    if_neg (fun hc => absurd hc.1 (by decide)), if_pos rfl, parseParen,
    List.getLast?_concat, if_pos rfl, List.dropLast_concat,
    parseInner_append kv.1 kv.2 hne hk]

lemma parseInner_ok_some {inner : Str} {kv : Str × Str}
    (h : parseInner inner = .ok (some kv)) : kv.1 ≠ [] ∧ ' ' ∉ kv.1 := by
  rw [parseInner] at h
  split_ifs at h with h1
  have hkv : ((splitFirstSpace inner).1, (splitFirstSpace inner).2.getD [])
      = kv := by
    injection h with h'
    injection h' with h''
  subst hkv
  exact ⟨h1, splitFirstSpace_fst_no_space inner⟩

lemma parseParen_ok_some {rest : Str} {kv : Str × Str}
    (h : parseParen rest = .ok (some kv)) : kv.1 ≠ [] ∧ ' ' ∉ kv.1 := by
  rw [parseParen] at h
  split_ifs at h with h1
  exact parseInner_ok_some h

lemma parseLine_ok_some {l : Str} {kv : Str × Str}
    (h : parseLine l = .ok (some kv)) : kv.1 ≠ [] ∧ ' ' ∉ kv.1 := by
  cases l with
  | nil => rw [parseLine] at h; simp at h
  | cons c cs =>
      rw [parseLine] at h
      split_ifs at h with h1 h2
      · simp at h
      · exact parseParen_ok_some h

lemma parseParamLines_ok_mem {ls : List Str} {ps : List (Str × Str)}
    (h : parseParamLines ls = .ok ps) :
    ∀ kv ∈ ps, kv.1 ≠ [] ∧ ' ' ∉ kv.1 := by
  induction ls generalizing ps with
  | nil =>
      rw [parseParamLines] at h
      have hps : ps = [] := by injection h with h'; exact h'.symm
      subst hps
      intro kv hkv
      exact absurd hkv (List.not_mem_nil kv)
  | cons l ls ih =>
      rw [parseParamLines] at h
      cases hpl : parseLine l with
      | error e => rw [hpl] at h; simp at h
      | ok o =>
          rw [hpl] at h
          cases hrec : parseParamLines ls with
          | error e => rw [hrec] at h; cases o <;> simp at h
          | ok rest =>
              rw [hrec] at h
              cases o with
              | none =>
                  have hps : ps = rest := by
                    have h' : (Except.ok rest :
                        Except ParamFileError (List (Str × Str))) = .ok ps := h
                    injection h' with h''
                    exact h''.symm
                  subst hps
                  exact ih hrec
              | some kv' =>
                  have hps : ps = kv' :: rest := by
                    have h' : (Except.ok (kv' :: rest) :
                        Except ParamFileError (List (Str × Str))) = .ok ps := h
                    injection h' with h''
                    exact h''.symm
                  subst hps
                  intro kv hkv
                  rcases List.mem_cons.mp hkv with h1 | h1
                  · exact h1 ▸ parseLine_ok_some hpl
                  · exact ih hrec kv h1

lemma parseParamLines_serializeParams (ps : List (Str × Str))
    (h : ∀ kv ∈ ps, kv.1 ≠ [] ∧ ' ' ∉ kv.1) :
    parseParamLines (serializeParams ps) = .ok ps := by
  induction ps with
  | nil => rfl
  | cons kv rest ih =>
      have hkv := h kv (List.mem_cons_self kv rest)
      have hrest := ih (fun x hx => h x (List.mem_cons_of_mem kv hx))
      show parseParamLines (serializeParam kv :: serializeParams rest) = _
      rw [parseParamLines, parseLine_serializeParam kv hkv.1 hkv.2, hrest]

/-- Claim C4: for every transformation successfully loaded with
`loadFromFile`, saving it with `saveToFile` to a new path and loading that
file back yields a parameter set with the same keys, the same values, and the
same insertion order as the original (load/save round-trip law). -/
theorem transformation_load_save_roundTrip
    (fs : TextFS) (path newPath : String) (t : Transformation)
    (h : loadFromFile fs path = .ok t) :
    loadFromFile (saveToFile fs newPath t) newPath = .ok t := by
  rw [loadFromFile] at h
  cases hr : readLines fs path with
  | none => rw [hr] at h; simp at h
  | some ls =>
      rw [hr] at h
      dsimp only at h
      cases hp : parseParamLines ls with
      | error e => rw [hp] at h; simp at h
      | ok ps =>
          rw [hp] at h
          have ht : (⟨ps⟩ : Transformation) = t := by
            injection h with h'
          subst ht
          rw [saveToFile, loadFromFile, readLines, if_pos rfl]
          dsimp only
          have hser : parseParamLines
              (serializeParams (⟨ps⟩ : Transformation).parameters) = .ok ps :=
            parseParamLines_serializeParams ps (parseParamLines_ok_mem hp)
          rw [hser]

/-- Witness for C4 at a concrete store: a one-file store holding a sample
parameter file, saved to a second path and reloaded. -/
theorem transformation_load_save_roundTrip_witness :
    loadFromFile
      (saveToFile [("Sample.txt", ["(Transform rigid)".toList])] "Other.txt"
        (Transformation.mk [("Transform".toList, "rigid".toList)]))
      "Other.txt" =
      .ok (Transformation.mk [("Transform".toList, "rigid".toList)]) :=
  transformation_load_save_roundTrip
    [("Sample.txt", ["(Transform rigid)".toList])] "Sample.txt" "Other.txt"
    (Transformation.mk [("Transform".toList, "rigid".toList)]) rfl

/-! ## Strategy nodes and edges

Modelled from the spec: `core/StrategyNode.py` and `core/StrategyEdge.py` are
not in the excerpt (only `tests/test_StrategyEdge.py` is).  A node holds a
dataset path, an optional fixed-reference path, an output folder and a dirty
flag; an edge binds a parent node, a child node and a transformation, and
`execute()` runs the external registration engine.  The file system is
modelled as the list of existing paths, directory creation by a flag, and the
external engine by a function from its invocation arguments to its outcome
(a produced output file on exit status zero, captured stderr otherwise);
a successful engine run writes its output file into the store. -/

/-- Modelled from the spec: a `StrategyNode` with fields `dataset`,
`fixedData`, `outputFolder` and `dirty`. -/
structure StrategyNode where
  dataset : Option String
  fixedData : Option String
  outputFolder : Option String
  dirty : Bool
deriving DecidableEq, Repr

/-- Modelled from the spec: construction defaults every field to null/empty
except `dirty = true`. -/
def StrategyNode.new : StrategyNode :=
  { dataset := none, fixedData := none, outputFolder := none, dirty := true }

/-- Modelled from the spec: a `StrategyEdge` with fields `parentNode`,
`childNode` and `transformation`, all unset at construction. -/
structure StrategyEdge where
  parentNode : Option StrategyNode
  childNode : Option StrategyNode
  transformation : Option Transformation
deriving DecidableEq, Repr

/-- A freshly constructed edge: all three fields unset. -/
def StrategyEdge.new : StrategyEdge :=
  { parentNode := none, childNode := none, transformation := none }

/-- The error taxonomy of `execute()`: missing parent/child/transformation or
missing parent dataset; filesystem failure; external process non-zero exit
carrying the captured stderr. -/
inductive EdgeError where
  | invalidEdgeState
  | ioError
  | registrationEngineError (stderr : String)
deriving DecidableEq, Repr

/-- The command-line arguments of one external registration engine
invocation: fixed image, moving image, serialized parameter file, output
directory. -/
structure EngineArgs where
  fixedImage : String
  movingImage : String
  paramFile : List Str
  outputDir : String
deriving DecidableEq, Repr

/-- The outcome of the external registration engine: exit code 0 with a
produced output file, or a non-zero exit with captured stderr. -/
inductive EngineResult where
  | success (outputFile : String)
  | failure (stderr : String)
deriving DecidableEq, Repr

/-- The environment of one `execute()` call: the set of existing paths, a
flag for whether creating the output folder succeeds, and the external
registration engine. -/
structure ExecEnv where
  fs : List String
  mkdirOk : Bool
  engine : EngineArgs → EngineResult

/-- Modelled from the spec: `StrategyEdge.execute()` (spec section 4.3).
Fails with `InvalidEdgeState` when `parentNode`, `childNode` or
`transformation` is unset or `parentNode.dataset` does not reference an
existing file; fails with `IOError` when the output folder cannot be
created; serializes the transformation and invokes the engine with fixed
image `parentNode.fixedData` (or `parentNode.dataset` when no fixed data is
set), moving image `parentNode.dataset`, and output directory
`childNode.outputFolder`; on a non-zero exit fails with
`RegistrationEngineError` carrying stderr; on success sets
`childNode.dataset` to the produced output file (which now exists in the
store) and clears `childNode.dirty`.  Returns the outcome together with the
resulting edge and path store; the edge and store are returned unchanged on
every failure. -/
def StrategyEdge.execute (e : StrategyEdge) (env : ExecEnv) :
    Except EdgeError Unit × StrategyEdge × List String :=
  match e.parentNode, e.childNode, e.transformation with
  | some pn, some cn, some t =>
      match pn.dataset with
      | some d =>
          if d ∈ env.fs then
            if env.mkdirOk then
              match env.engine
                  { fixedImage := pn.fixedData.getD d
                    movingImage := d
                    paramFile := serializeParams t.parameters
                    outputDir := cn.outputFolder.getD "" } with
              | .success outFile =>
                  (.ok (),
                   StrategyEdge.mk e.parentNode
                     (some (StrategyNode.mk (some outFile) cn.fixedData
                       cn.outputFolder false))
                     e.transformation,
                   outFile :: env.fs)
              | .failure err =>
                  (.error (.registrationEngineError err), e, env.fs)
            else (.error .ioError, e, env.fs)
          else (.error .invalidEdgeState, e, env.fs)
      | none => (.error .invalidEdgeState, e, env.fs)
  | _, _, _ => (.error .invalidEdgeState, e, env.fs)

/-! ### Helper lemmas on `StrategyEdge.execute` -/

lemma execute_eq_of_valid (e : StrategyEdge) (env : ExecEnv)
    (pn cn : StrategyNode) (t : Transformation) (d : String)
    (hpn : e.parentNode = some pn) (hcn : e.childNode = some cn)
    (ht : e.transformation = some t) (hd : pn.dataset = some d)
    (hfs : d ∈ env.fs) (hmk : env.mkdirOk = true) :
    e.execute env =
      match env.engine
          { fixedImage := pn.fixedData.getD d
            movingImage := d
            paramFile := serializeParams t.parameters
            outputDir := cn.outputFolder.getD "" } with
      | .success outFile =>
          (.ok (),
           StrategyEdge.mk e.parentNode
             (some (StrategyNode.mk (some outFile) cn.fixedData
               cn.outputFolder false))
             e.transformation,
           outFile :: env.fs)
      | .failure err => (.error (.registrationEngineError err), e, env.fs) := by
  rw [StrategyEdge.execute.eq_def, hpn, hcn, ht]
  dsimp only
  rw [hd]
  dsimp only
  rw [if_pos hfs, if_pos hmk]

lemma execute_eq_of_mkdir_fail (e : StrategyEdge) (env : ExecEnv)
    (pn cn : StrategyNode) (t : Transformation) (d : String)
    (hpn : e.parentNode = some pn) (hcn : e.childNode = some cn)
    (ht : e.transformation = some t) (hd : pn.dataset = some d)
    (hfs : d ∈ env.fs) (hmk : env.mkdirOk = false) :
    e.execute env = (.error .ioError, e, env.fs) := by
  rw [StrategyEdge.execute.eq_def, hpn, hcn, ht]
  dsimp only
  rw [hd]
  dsimp only
  rw [if_pos hfs, if_neg (by simp [hmk])]

/-! ### Claims about `StrategyEdge.execute` -/

/-- Claim C1: for every edge whose `parentNode`, `childNode` and
`transformation` are set and whose `parentNode.dataset` references an
existing file, after a successful call to `execute()` the child node has
`dirty = false` and `dataset` a non-null path that exists in the store. -/
theorem execute_success_materializes_child (e : StrategyEdge) (env : ExecEnv)
    (pn cn : StrategyNode) (t : Transformation) (d : String)
    (e' : StrategyEdge) (fs' : List String)
    (hpn : e.parentNode = some pn) (hcn : e.childNode = some cn)
    (ht : e.transformation = some t) (hd : pn.dataset = some d)
    (hfs : d ∈ env.fs)
    (h : e.execute env = (.ok (), e', fs')) :
    ∃ cn', e'.childNode = some cn' ∧ cn'.dirty = false ∧
      ∃ p, cn'.dataset = some p ∧ p ∈ fs' := by
  by_cases hmk : env.mkdirOk = true
  · rw [execute_eq_of_valid e env pn cn t d hpn hcn ht hd hfs hmk] at h
    cases heng : env.engine
        { fixedImage := pn.fixedData.getD d
          movingImage := d
          paramFile := serializeParams t.parameters
          outputDir := cn.outputFolder.getD "" } with
    | success outFile =>
        rw [heng] at h
        dsimp only at h
        have h2 : StrategyEdge.mk e.parentNode
            (some (StrategyNode.mk (some outFile) cn.fixedData
              cn.outputFolder false)) e.transformation = e' :=
          congrArg (fun x => x.2.1) h
        have h3 : outFile :: env.fs = fs' := congrArg (fun x => x.2.2) h
        refine ⟨StrategyNode.mk (some outFile) cn.fixedData
          cn.outputFolder false, ?_, rfl, outFile, rfl, ?_⟩
        · rw [← h2]
        · rw [← h3]; exact List.mem_cons_self _ _
    | failure err =>
        rw [heng] at h
        dsimp only at h
        simp at h
  · have hmk' : env.mkdirOk = false := by
      cases hb : env.mkdirOk
      · rfl
      · exact absurd hb hmk
    rw [execute_eq_of_mkdir_fail e env pn cn t d hpn hcn ht hd hfs hmk'] at h
    simp at h

/-- Witness for C1 at a concrete edge, store and engine. -/
theorem execute_success_materializes_child_witness :
    ∃ cn', (StrategyEdge.mk
        (some (StrategyNode.mk (some "p.mhd") (some "f.mhd") (some "o") false))
        (some (StrategyNode.mk (some "r.mhd") none (some "oo") false))
        (some (Transformation.mk [("k".toList, "v".toList)]))).childNode =
        some cn' ∧
      cn'.dirty = false ∧
      ∃ p, cn'.dataset = some p ∧ p ∈ ["r.mhd", "p.mhd", "f.mhd"] :=
  execute_success_materializes_child
    (StrategyEdge.mk
      (some (StrategyNode.mk (some "p.mhd") (some "f.mhd") (some "o") false))
      (some (StrategyNode.mk none none (some "oo") true))
      (some (Transformation.mk [("k".toList, "v".toList)])))
    ⟨["p.mhd", "f.mhd"], true, fun _ => .success "r.mhd"⟩
    (StrategyNode.mk (some "p.mhd") (some "f.mhd") (some "o") false)
    (StrategyNode.mk none none (some "oo") true)
    (Transformation.mk [("k".toList, "v".toList)]) "p.mhd"
    (StrategyEdge.mk
      (some (StrategyNode.mk (some "p.mhd") (some "f.mhd") (some "o") false))
      (some (StrategyNode.mk (some "r.mhd") none (some "oo") false))
      (some (Transformation.mk [("k".toList, "v".toList)])))
    ["r.mhd", "p.mhd", "f.mhd"]
    rfl rfl rfl rfl (by decide) rfl

/-- Claim C2: `execute()` on an edge whose `parentNode`, `childNode` or
`transformation` is unset, or whose `parentNode.dataset` is unset or does not
reference an existing file, fails with `InvalidEdgeState` and returns the
edge (hence every field of `childNode`) and the store unchanged. -/
theorem execute_invalid_state_unchanged (e : StrategyEdge) (env : ExecEnv)
    (h : e.parentNode = none ∨ e.childNode = none ∨
      e.transformation = none ∨
      (∃ pn, e.parentNode = some pn ∧ pn.dataset = none) ∨
      (∃ pn d, e.parentNode = some pn ∧ pn.dataset = some d ∧
        d ∉ env.fs)) :
    e.execute env = (.error .invalidEdgeState, e, env.fs) := by
  rw [StrategyEdge.execute.eq_def]
  rcases h with h | h | h | ⟨pn, hpn, hds⟩ | ⟨pn, d, hpn, hds, hmem⟩
  · rw [h]
  · cases hpn : e.parentNode with
    | none => rfl
    | some pn => rw [h]
  · cases hpn : e.parentNode with
    | none => rfl
    | some pn =>
        cases hcn : e.childNode with
        | none => rfl
        | some cn => rw [h]
  · rw [hpn]
    cases hcn : e.childNode with
    | none => rfl
    | some cn =>
        cases htr : e.transformation with
        | none => rfl
        | some t =>
            dsimp only
            rw [hds]
  · rw [hpn]
    cases hcn : e.childNode with
    | none => rfl
    | some cn =>
        cases htr : e.transformation with
        | none => rfl
        | some t =>
            dsimp only
            rw [hds]
            dsimp only
            rw [if_neg hmem]

/-- Witness for C2: a freshly constructed edge with everything unset. -/
theorem execute_invalid_state_unchanged_witness :
    StrategyEdge.new.execute ⟨[], true, fun _ => .failure ""⟩ =
      (.error .invalidEdgeState, StrategyEdge.new, []) :=
  execute_invalid_state_unchanged StrategyEdge.new
    ⟨[], true, fun _ => .failure ""⟩ (Or.inl rfl)

/-- Claim C3: when the subprocess invocation `execute()` actually makes (the
one with fixed image `fixedData`-or-`dataset`, moving image `dataset`, the
serialized transformation and the child's output folder) exits non-zero,
`execute()` fails with `RegistrationEngineError` carrying the captured
stderr, and the child node's state is unchanged: the returned edge still
holds the original child, whose `dirty` remains true and whose `dataset`
remains unset. -/
theorem execute_engine_failure_preserves_child (e : StrategyEdge)
    (env : ExecEnv) (pn cn : StrategyNode) (t : Transformation) (d : String)
    (err : String)
    (hpn : e.parentNode = some pn) (hcn : e.childNode = some cn)
    (ht : e.transformation = some t) (hd : pn.dataset = some d)
    (hfs : d ∈ env.fs) (hmk : env.mkdirOk = true)
    (hdirty : cn.dirty = true) (hds : cn.dataset = none)
    (heng : env.engine
        { fixedImage := pn.fixedData.getD d
          movingImage := d
          paramFile := serializeParams t.parameters
          outputDir := cn.outputFolder.getD "" } = .failure err) :
    e.execute env = (.error (.registrationEngineError err), e, env.fs) ∧
    (e.execute env).2.1.childNode = some cn ∧
    cn.dirty = true ∧ cn.dataset = none := by
  have hex : e.execute env =
      (.error (.registrationEngineError err), e, env.fs) := by
    rw [execute_eq_of_valid e env pn cn t d hpn hcn ht hd hfs hmk, heng]
  refine ⟨hex, ?_, hdirty, hds⟩
  rw [hex]
  exact hcn

/-- Witness for C3 at a concrete edge and an engine that fails at the
actual invocation. -/
theorem execute_engine_failure_preserves_child_witness :
    (StrategyEdge.mk
        (some (StrategyNode.mk (some "p.mhd") none (some "o") false))
        (some (StrategyNode.mk none none (some "oo") true))
        (some (Transformation.mk [("k".toList, "v".toList)]))).execute
      ⟨["p.mhd"], true, fun _ => .failure "boom"⟩ =
      (.error (.registrationEngineError "boom"),
       StrategyEdge.mk
         (some (StrategyNode.mk (some "p.mhd") none (some "o") false))
         (some (StrategyNode.mk none none (some "oo") true))
         (some (Transformation.mk [("k".toList, "v".toList)])),
       ["p.mhd"]) ∧
    ((StrategyEdge.mk
        (some (StrategyNode.mk (some "p.mhd") none (some "o") false))
        (some (StrategyNode.mk none none (some "oo") true))
        (some (Transformation.mk [("k".toList, "v".toList)]))).execute
      ⟨["p.mhd"], true, fun _ => .failure "boom"⟩).2.1.childNode =
      some (StrategyNode.mk none none (some "oo") true) ∧
    (StrategyNode.mk none none (some "oo") true).dirty = true ∧
    (StrategyNode.mk none none (some "oo") true).dataset = none :=
  execute_engine_failure_preserves_child
    (StrategyEdge.mk
      (some (StrategyNode.mk (some "p.mhd") none (some "o") false))
      (some (StrategyNode.mk none none (some "oo") true))
      (some (Transformation.mk [("k".toList, "v".toList)])))
    ⟨["p.mhd"], true, fun _ => .failure "boom"⟩
    (StrategyNode.mk (some "p.mhd") none (some "o") false)
    (StrategyNode.mk none none (some "oo") true)
    (Transformation.mk [("k".toList, "v".toList)]) "p.mhd" "boom"
    rfl rfl rfl rfl (by decide) rfl rfl rfl rfl

/-- Claim C5: a freshly constructed `StrategyNode` has all fields null/empty
except `dirty = true`; a freshly constructed `StrategyEdge` has all fields
unset; and for an edge over a fresh dirty child (as in the test, with only
its output folder assigned), before `execute()` the child's `dataset` is
null and its `dirty` flag is true. -/
theorem fresh_node_edge_defaults :
    (StrategyNode.new.dataset = none ∧ StrategyNode.new.fixedData = none ∧
     StrategyNode.new.outputFolder = none ∧ StrategyNode.new.dirty = true) ∧
    (StrategyEdge.new.parentNode = none ∧ StrategyEdge.new.childNode = none ∧
     StrategyEdge.new.transformation = none) ∧
    ∀ (e : StrategyEdge) (folder : String),
      e.childNode = some (StrategyNode.mk none none (some folder) true) →
      ∃ cn, e.childNode = some cn ∧ cn.dataset = none ∧ cn.dirty = true := by
  refine ⟨⟨rfl, rfl, rfl, rfl⟩, ⟨rfl, rfl, rfl⟩, ?_⟩
  intro e folder h
  exact ⟨StrategyNode.mk none none (some folder) true, h, rfl, rfl⟩

/-- Witness for C5: an edge over a fresh dirty child with an output folder. -/
theorem fresh_node_edge_defaults_witness :
    ∃ cn, (StrategyEdge.mk none
        (some (StrategyNode.mk none none (some "oo") true)) none).childNode =
        some cn ∧ cn.dataset = none ∧ cn.dirty = true :=
  fresh_node_edge_defaults.2.2
    (StrategyEdge.mk none
      (some (StrategyNode.mk none none (some "oo") true)) none) "oo" rfl

/-- Claim C6: on a valid edge, `execute()` consults the engine exactly at the
invocation whose fixed image is `parentNode.fixedData` when set and
`parentNode.dataset` otherwise (fixed reference wins when present), and whose
moving image is always `parentNode.dataset`: two environments with the same
store and directory behavior whose engines agree at that one invocation make
`execute()` agree. -/
theorem execute_engine_args_policy (e : StrategyEdge) (env env2 : ExecEnv)
    (pn cn : StrategyNode) (t : Transformation) (d : String)
    (hpn : e.parentNode = some pn) (hcn : e.childNode = some cn)
    (ht : e.transformation = some t) (hd : pn.dataset = some d)
    (hfs : d ∈ env.fs) (hmk : env.mkdirOk = true)
    (hfs2 : env2.fs = env.fs) (hmk2 : env2.mkdirOk = env.mkdirOk)
    (hagree : env2.engine
        { fixedImage := pn.fixedData.getD d
          movingImage := d
          paramFile := serializeParams t.parameters
          outputDir := cn.outputFolder.getD "" } =
      env.engine
        { fixedImage := pn.fixedData.getD d
          movingImage := d
          paramFile := serializeParams t.parameters
          outputDir := cn.outputFolder.getD "" }) :
    e.execute env2 = e.execute env := by
  rw [execute_eq_of_valid e env pn cn t d hpn hcn ht hd hfs hmk,
    execute_eq_of_valid e env2 pn cn t d hpn hcn ht hd
      (by rw [hfs2]; exact hfs) (by rw [hmk2]; exact hmk),
    hagree, hfs2]

/-- Witness for C6: two environments whose engines differ away from the
prescribed invocation agree on `execute()`. -/
theorem execute_engine_args_policy_witness :
    (StrategyEdge.mk
        (some (StrategyNode.mk (some "p.mhd") (some "f.mhd") (some "o") false))
        (some (StrategyNode.mk none none (some "oo") true))
        (some (Transformation.mk [("k".toList, "v".toList)]))).execute
      ⟨["p.mhd"], true,
        fun a => if a.fixedImage = "f.mhd" then .success "r.mhd"
                 else .failure "x"⟩ =
    (StrategyEdge.mk
        (some (StrategyNode.mk (some "p.mhd") (some "f.mhd") (some "o") false))
        (some (StrategyNode.mk none none (some "oo") true))
        (some (Transformation.mk [("k".toList, "v".toList)]))).execute
      ⟨["p.mhd"], true, fun _ => .success "r.mhd"⟩ :=
  execute_engine_args_policy
    (StrategyEdge.mk
      (some (StrategyNode.mk (some "p.mhd") (some "f.mhd") (some "o") false))
      (some (StrategyNode.mk none none (some "oo") true))
      (some (Transformation.mk [("k".toList, "v".toList)])))
    ⟨["p.mhd"], true, fun _ => .success "r.mhd"⟩
    ⟨["p.mhd"], true,
      fun a => if a.fixedImage = "f.mhd" then .success "r.mhd"
               else .failure "x"⟩
    (StrategyNode.mk (some "p.mhd") (some "f.mhd") (some "o") false)
    (StrategyNode.mk none none (some "oo") true)
    (Transformation.mk [("k".toList, "v".toList)]) "p.mhd"
    rfl rfl rfl rfl (by decide) rfl rfl rfl rfl

/-! ## Strategy graph dirty propagation

Modelled from the spec (section 4.4): the graph-level walk is not in the
excerpt.  The strategy graph's edge set is a list of (parent id, child id)
pairs; node dirty flags are a function from node id.  Marking an ancestor
dirty propagates through outgoing edges to every reachable descendant,
collecting each reachable node exactly once in a worklist saturation, and
touching no other node. -/

/-- The children reachable in one step from node `n` via outgoing edges. -/
def successors (edges : List (Nat × Nat)) (n : Nat) : List Nat :=
  (edges.filter (fun ed => ed.1 == n)).map (fun ed => ed.2)

/-- Appends to `acc` the elements of `xs` not already present, keeping the
collection duplicate-free (every node is taken up at most once). -/
def addNew (acc xs : List Nat) : List Nat :=
  xs.foldl (fun S x => if x ∈ S then S else S ++ [x]) acc

/-- All one-step successors of the nodes of `S`, in order. -/
def succAll (edges : List (Nat × Nat)) (S : List Nat) : List Nat :=
  S.foldr (fun a acc => successors edges a ++ acc) []

/-- One round of the worklist: adds every not-yet-collected one-step
successor of the collected nodes. -/
def stepSet (edges : List (Nat × Nat)) (S : List Nat) : List Nat :=
  addNew S (succAll edges S)

/-- Iterates `stepSet` until it fixes, with a fuel bound. -/
def closureAux (edges : List (Nat × Nat)) : Nat → List Nat → List Nat
  | 0, S => S
  | n + 1, S =>
      if stepSet edges S = S then S
      else closureAux edges n (stepSet edges S)

/-- The nodes reachable from `s` via outgoing edges (including `s`): the
saturation of `{s}` under one-step successors.  The fuel
`edges.length + 1` is enough because every newly collected node is the
target of some edge. -/
def reachableFrom (edges : List (Nat × Nat)) (s : Nat) : List Nat :=
  closureAux edges (edges.length + 1) [s]

/-- Modelled from the spec: marking the ancestor `s` dirty propagates the
dirty flag to every transitive descendant reachable via outgoing edges, and
to no other node. -/
def propagateDirty (edges : List (Nat × Nat)) (dirty : Nat → Bool)
    (s : Nat) : Nat → Bool :=
  fun m => if m ∈ reachableFrom edges s then true else dirty m

/-- Transitive reachability from `s` along the directed edges, including `s`
itself: the specification-side notion of the set of descendants that must be
marked dirty. -/
inductive Reaches (edges : List (Nat × Nat)) (s : Nat) : Nat → Prop where
  | refl : Reaches edges s s
  | tail {a b : Nat} : Reaches edges s a → (a, b) ∈ edges →
      Reaches edges s b

/-! ### Lemmas on the saturation -/

lemma mem_successors {edges : List (Nat × Nat)} {a b : Nat} :
    b ∈ successors edges a ↔ (a, b) ∈ edges := by
  constructor
  · intro h
    rcases List.mem_map.mp h with ⟨ed, hed, hsnd⟩
    rcases List.mem_filter.mp hed with ⟨hmem, hfst⟩
    have h1 : ed.1 = a := by simpa using hfst
    obtain ⟨x, y⟩ := ed
    dsimp only at h1 hsnd
    rw [← h1, ← hsnd]
    exact hmem
  · intro h
    apply List.mem_map.mpr
    refine ⟨(a, b), List.mem_filter.mpr ⟨h, ?_⟩, rfl⟩
    simp

lemma mem_succAll {edges : List (Nat × Nat)} {S : List Nat} {b : Nat} :
    b ∈ succAll edges S ↔ ∃ a ∈ S, (a, b) ∈ edges := by
  induction S with
  | nil => simp [succAll]
  | cons a S ih =>
      show b ∈ successors edges a ++ succAll edges S ↔ _
      rw [List.mem_append, ih]
      constructor
      · rintro (h | ⟨c, hc, hcb⟩)
        · exact ⟨a, List.mem_cons_self a S, mem_successors.mp h⟩
        · exact ⟨c, List.mem_cons_of_mem a hc, hcb⟩
      · rintro ⟨c, hc, hcb⟩
        rcases List.mem_cons.mp hc with hca | hcS
        · exact Or.inl (mem_successors.mpr (hca ▸ hcb))
        · exact Or.inr ⟨c, hcS, hcb⟩

lemma addNew_eq_append (xs : List Nat) :
    ∀ acc : List Nat, ∃ t, addNew acc xs = acc ++ t := by
  induction xs with
  | nil => exact fun acc => ⟨[], by simp [addNew]⟩
  | cons x xs ih =>
      intro acc
      show ∃ t, addNew (if x ∈ acc then acc else acc ++ [x]) xs = acc ++ t
      by_cases hx : x ∈ acc
      · rw [if_pos hx]; exact ih acc
      · rw [if_neg hx]
        rcases ih (acc ++ [x]) with ⟨t, ht⟩
        exact ⟨[x] ++ t, by rw [ht, List.append_assoc]⟩

lemma mem_addNew {xs : List Nat} {y : Nat} :
    ∀ {acc : List Nat}, y ∈ addNew acc xs ↔ y ∈ acc ∨ y ∈ xs := by
  induction xs with
  | nil => intro acc; simp [addNew]
  | cons x xs ih =>
      intro acc
      show y ∈ addNew (if x ∈ acc then acc else acc ++ [x]) xs ↔ _
      rw [ih]
      by_cases hx : x ∈ acc
      · rw [if_pos hx]
        constructor
        · rintro (h | h)
          · exact Or.inl h
          · exact Or.inr (List.mem_cons_of_mem x h)
        · rintro (h | h)
          · exact Or.inl h
          · rcases List.mem_cons.mp h with hyx | hyxs
            · exact Or.inl (hyx ▸ hx)
            · exact Or.inr hyxs
      · rw [if_neg hx]
        constructor
        · rintro (h | h)
          · rcases List.mem_append.mp h with h1 | h1
            · exact Or.inl h1
            · exact Or.inr (List.mem_cons.mpr (Or.inl (by simpa using h1)))
          · exact Or.inr (List.mem_cons_of_mem x h)
        · rintro (h | h)
          · exact Or.inl (List.mem_append.mpr (Or.inl h))
          · rcases List.mem_cons.mp h with hyx | hyxs
            · exact Or.inl (List.mem_append.mpr (Or.inr (by simp [hyx])))
            · exact Or.inr hyxs

lemma addNew_nodup (xs : List Nat) :
    ∀ {acc : List Nat}, acc.Nodup → (addNew acc xs).Nodup := by
  induction xs with
  | nil => intro acc h; simpa [addNew] using h
  | cons x xs ih =>
      intro acc h
      show (addNew (if x ∈ acc then acc else acc ++ [x]) xs).Nodup
      by_cases hx : x ∈ acc
      · rw [if_pos hx]; exact ih h
      · rw [if_neg hx]
        refine ih ?_
        simp [List.nodup_append, h, hx]

lemma mem_stepSet {edges : List (Nat × Nat)} {S : List Nat} {y : Nat} :
    y ∈ stepSet edges S ↔ y ∈ S ∨ ∃ a ∈ S, (a, y) ∈ edges := by
  rw [stepSet, mem_addNew, mem_succAll]

lemma subset_stepSet {edges : List (Nat × Nat)} {S : List Nat} :
    S ⊆ stepSet edges S :=
  fun _ hy => mem_stepSet.mpr (Or.inl hy)

lemma stepSet_nodup {edges : List (Nat × Nat)} {S : List Nat}
    (h : S.Nodup) : (stepSet edges S).Nodup :=
  addNew_nodup _ h

lemma stepSet_length_lt {edges : List (Nat × Nat)} {S : List Nat}
    (h : stepSet edges S ≠ S) : S.length < (stepSet edges S).length := by
  rcases addNew_eq_append (succAll edges S) S with ⟨t, ht⟩
  rw [stepSet] at h ⊢
  rw [ht] at h ⊢
  cases t with
  | nil => simp at h
  | cons a t => simp

lemma closureAux_fix (edges : List (Nat × Nat)) (U : List Nat)
    (hU : ∀ ed ∈ edges, ed.2 ∈ U) :
    ∀ (n : Nat) (S : List Nat), S.Nodup → S ⊆ U →
      U.length + 1 - S.length ≤ n →
      stepSet edges (closureAux edges n S) = closureAux edges n S ∧
      (closureAux edges n S).Nodup ∧
      closureAux edges n S ⊆ U ∧
      S ⊆ closureAux edges n S := by
  intro n
  induction n with
  | zero =>
      intro S hnd hsub hfuel
      have hlen : S.length ≤ U.length :=
        List.Subperm.length_le (List.subperm_of_subset hnd hsub)
      exfalso
      omega
  | succ n ih =>
      intro S hnd hsub hfuel
      rw [closureAux]
      by_cases hfix : stepSet edges S = S
      · rw [if_pos hfix]
        exact ⟨hfix, hnd, hsub, fun y hy => hy⟩
      · rw [if_neg hfix]
        have hnd' : (stepSet edges S).Nodup := stepSet_nodup hnd
        have hsub' : stepSet edges S ⊆ U := by
          intro y hy
          rcases mem_stepSet.mp hy with h | ⟨a, ha, hay⟩
          · exact hsub h
          · exact hU (a, y) hay
        have hlt : S.length < (stepSet edges S).length :=
          stepSet_length_lt hfix
        have hfuel' : U.length + 1 - (stepSet edges S).length ≤ n := by omega
        rcases ih (stepSet edges S) hnd' hsub' hfuel' with ⟨h1, h2, h3, h4⟩
        exact ⟨h1, h2, h3, fun y hy => h4 (subset_stepSet hy)⟩

lemma closureAux_sound (edges : List (Nat × Nat)) (s : Nat) :
    ∀ (n : Nat) (S : List Nat), (∀ x ∈ S, Reaches edges s x) →
      ∀ y ∈ closureAux edges n S, Reaches edges s y := by
  intro n
  induction n with
  | zero => intro S hS y hy; exact hS y hy
  | succ n ih =>
      intro S hS y hy
      rw [closureAux] at hy
      by_cases hfix : stepSet edges S = S
      · rw [if_pos hfix] at hy; exact hS y hy
      · rw [if_neg hfix] at hy
        refine ih (stepSet edges S) ?_ y hy
        intro x hx
        rcases mem_stepSet.mp hx with h | ⟨a, ha, hax⟩
        · exact hS x h
        · exact Reaches.tail (hS a ha) hax

lemma reachableFrom_spec (edges : List (Nat × Nat)) (s : Nat) :
    (∀ m, m ∈ reachableFrom edges s ↔ Reaches edges s m) ∧
    (reachableFrom edges s).Nodup := by
  have hU : ∀ ed ∈ edges, ed.2 ∈ s :: edges.map (fun ed => ed.2) := by
    intro ed hed
    exact List.mem_cons_of_mem s (List.mem_map.mpr ⟨ed, hed, rfl⟩)
  have hsingle : ([s] : List Nat) ⊆ s :: edges.map (fun ed => ed.2) := by
    intro y hy
    rw [List.mem_singleton] at hy
    exact hy ▸ List.mem_cons_self _ _
  have hfuel : (s :: edges.map (fun ed => ed.2)).length + 1 -
      ([s] : List Nat).length ≤ edges.length + 1 := by
    simp
  have hfix := closureAux_fix edges (s :: edges.map (fun ed => ed.2)) hU
    (edges.length + 1) [s] (by simp) hsingle hfuel
  rcases hfix with ⟨h1, h2, h3, h4⟩
  simp only [reachableFrom]
  refine ⟨?_, h2⟩
  intro m
  constructor
  · intro hm
    refine closureAux_sound edges s (edges.length + 1) [s] ?_ m hm
    intro x hx
    rw [List.mem_singleton] at hx
    exact hx ▸ Reaches.refl
  · intro hre
    induction hre with
    | refl => exact h4 (List.mem_singleton.mpr rfl)
    | tail ha hab ih =>
        have hb := mem_stepSet.mpr (Or.inr ⟨_, ih, hab⟩)
        rw [h1] at hb
        exact hb

/-- Claim C7: marking an ancestor node dirty marks dirty exactly the set of
transitive descendants reachable from it via outgoing edges: a node is dirty
afterwards iff it is reachable or was already dirty, the reachable set is
collected without duplicates (each node taken up once), and a node outside
the reachable set keeps its dirty flag unchanged.  This holds for every edge
list, in particular for acyclic strategy graphs. -/
theorem propagateDirty_marks_descendants (edges : List (Nat × Nat))
    (dirty : Nat → Bool) (s m : Nat) :
    (propagateDirty edges dirty s m = true ↔
      (Reaches edges s m ∨ dirty m = true)) ∧
    (reachableFrom edges s).Nodup ∧
    (¬ Reaches edges s m → propagateDirty edges dirty s m = dirty m) := by
  obtain ⟨hiff, hnd⟩ := reachableFrom_spec edges s
  refine ⟨?_, hnd, ?_⟩
  · simp only [propagateDirty]
    by_cases hm : m ∈ reachableFrom edges s
    · rw [if_pos hm]
      simp [(hiff m).mp hm]
    · rw [if_neg hm]
      have hnre : ¬ Reaches edges s m := fun hre => hm ((hiff m).mpr hre)
      constructor
      · exact fun hd => Or.inr hd
      · rintro (hre | hd)
        · exact absurd hre hnre
        · exact hd
  · intro hnre
    simp only [propagateDirty]
    rw [if_neg (fun hm => hnre ((hiff m).mp hm))]

/-- Witness for C7 on the one-edge graph 0 → 1: the unrelated node 5 keeps
its dirty flag. -/
theorem propagateDirty_marks_descendants_witness :
    propagateDirty [(0, 1)] (fun _ => false) 0 5 = false := by
  refine (propagateDirty_marks_descendants [(0, 1)]
    (fun _ => false) 0 5).2.2 ?_
  intro hre
  have hmem := ((reachableFrom_spec [(0, 1)] 0).1 5).mpr hre
  exact absurd hmem (by decide)

end RegistrationShop
